import Mathlib

/-!
Line redraw of the CLI input layer (`lib/cli/cli_input.h`)

A shallow embedding of `cli_get_cursor`, `cli_clear_line`,
`cli_display_prompt`, `cli_display_line` and `cli_redisplay_line`.

* C integers are unbounded `Int`s.  `window_range32_eq` shows that reducing
  every operation of the window block to 32 bits gives the same window
  whenever the inputs and `point - window` fit an `int`.
* The session (`this_cli`), the screen width (`this_scrn->ncols`) and the
  prompt callback are passed explicitly.
* Terminal output is recorded as a list of `Out` events, in emission order.
* The bytes that `cli_read` delivers to `cli_get_cursor` are a list; reading
  past its end blocks.
-/

namespace CliInput

/-! ## Collaborators that live outside `cli_input.h` -/

/-- Modelled from the spec: the gap buffer (`gapbuf.h`) is not part of the
sources.  The Text Buffer contract exposes the logical content, its total
size and the offset of the insertion point; that is all the redraw code
reads. -/
structure gapbuf where
  data : List Char
  point : Nat
deriving DecidableEq

/-- Modelled from the spec: `total_size()`, the combined logical length. -/
def gb_data_size (gb : gapbuf) : Int := gb.data.length

/-- Modelled from the spec: `point_offset()`, the insertion point counted
from the logical start. -/
def gb_point_offset (gb : gapbuf) : Int := gb.point

/-- Modelled from the spec: `copy_to(external_buffer, max_len)` materialises
the logical content contiguously; the number of bytes copied is the length
of the returned list. -/
def gb_copy_to_buf (gb : gapbuf) (size : Int) : List Char :=
  gb.data.take size.toNat

/-! ## The visible window (lines 313-322 of `cli_display_line`) -/

/-- The `if (point < window) ... else ...` block of `cli_display_line`,
returning `(wstart, wend)`.  The arithmetic is kept as written in C. -/
def window_range (point len window : Int) : Int × Int :=
  if point < window then
    if len < window then
      (0, point + (len - point))
    else
      (0, point + (window - point))
  else
    (point - window, (point - window) + window)

/-- Reduction of an integer to the range of a 32-bit `int`. -/
def wrap32 (x : Int) : Int := (x + 2147483648) % 4294967296 - 2147483648

/-- The window block with every arithmetic result reduced to 32 bits. -/
def window_range32 (point len window : Int) : Int × Int :=
  if point < window then
    if len < window then
      (0, wrap32 (point + wrap32 (len - point)))
    else
      (0, wrap32 (point + wrap32 (window - point)))
  else
    (wrap32 (point - window), wrap32 (wrap32 (point - window) + window))

/-- The windowing rules as the specification words them: start at 0 and end
at `min(total_length, window_width)` while the point is inside the first
window, otherwise start at `point - window_width` and end `window_width`
further. -/
def window_spec (point total_length window_width : Int) : Int × Int :=
  if point < window_width then
    (0, min total_length window_width)
  else
    (point - window_width, (point - window_width) + window_width)


/-! ## Session state -/

/-- Modelled from the spec: the flag word of the session and the flag
constants live in `cli.h`, which is not part of the sources.  The spec
describes the pending flags as independent boolean bits, so the word is a
record with one boolean per flag that `cli_input.h` names, and `other` keeps
the remaining bits of the word. -/
structure Flags where
  delete_char : Bool
  clear_line : Bool
  clear_to_eol : Bool
  display_prompt : Bool
  display_line : Bool
  prompt_continue : Bool
  other : Nat
deriving DecidableEq

/-- The flag word with no bit set. -/
def Flags.none : Flags := ⟨false, false, false, false, false, false, 0⟩

def DELETE_CHAR : Flags := { Flags.none with delete_char := true }
def CLEAR_LINE : Flags := { Flags.none with clear_line := true }
def CLEAR_TO_EOL : Flags := { Flags.none with clear_to_eol := true }
def DISPLAY_PROMPT : Flags := { Flags.none with display_prompt := true }
def DISPLAY_LINE : Flags := { Flags.none with display_line := true }
def PROMPT_CONTINUE : Flags := { Flags.none with prompt_continue := true }

/-- Bitwise or of two flag words (`a | b`). -/
def Flags.or (a b : Flags) : Flags :=
  { delete_char := a.delete_char || b.delete_char
    clear_line := a.clear_line || b.clear_line
    clear_to_eol := a.clear_to_eol || b.clear_to_eol
    display_prompt := a.display_prompt || b.display_prompt
    display_line := a.display_line || b.display_line
    prompt_continue := a.prompt_continue || b.prompt_continue
    other := a.other ||| b.other }

/-- Bitwise and-not of two flag words (`a & ~b`). -/
def Flags.andNot (a b : Flags) : Flags :=
  { delete_char := a.delete_char && !b.delete_char
    clear_line := a.clear_line && !b.clear_line
    clear_to_eol := a.clear_to_eol && !b.clear_to_eol
    display_prompt := a.display_prompt && !b.display_prompt
    display_line := a.display_line && !b.display_line
    prompt_continue := a.prompt_continue && !b.prompt_continue
    other := a.other ^^^ (a.other &&& b.other) }

/-- Truth value of `a & b` as a C condition: some bit is set in both. -/
def Flags.test (a b : Flags) : Bool :=
  (a.delete_char && b.delete_char) || (a.clear_line && b.clear_line) ||
  (a.clear_to_eol && b.clear_to_eol) || (a.display_prompt && b.display_prompt) ||
  (a.display_line && b.display_line) || (a.prompt_continue && b.prompt_continue) ||
  (a.other &&& b.other != 0)

/-- The fields of `struct cli` that the redraw code touches (`this_cli`). -/
structure cli where
  gb : gapbuf
  plen : Int
  flags : Flags
deriving DecidableEq

/-! ## Terminal output -/

/-- One terminal operation issued by the redraw code.  The escape strings
(`vt100_*`) and the `scrn_*` primitives are defined outside `cli_input.h`,
so each of them is recorded as an event of its own. -/
inductive Out where
  /-- Text written with cli_write: a literal string. -/
  | write (msg : List Char)
  /-- The call cli_write(&buf[off], len) on the copied line. -/
  | write_buf (buf : List Char) (off len : Int)
  /-- The sequence vt100_clear_right: clear from the cursor to the end of line. -/
  | clear_right
  /-- The sequence vt100_clear_line. -/
  | clear_line
  /-- The sequence vt100_left_arr: cursor one cell left. -/
  | left_arr
  /-- The formatted sequence vt100_pos_cursor with its two arguments. -/
  | pos_cursor (row col : Int)
  /-- The primitive scrn_bol: cursor to column 0. -/
  | bol
  /-- The primitive scrn_cnright: cursor right by n. -/
  | cnright (n : Int)
  /-- A call of the prompt renderer with argument t. -/
  | prompt (t : Int)
deriving DecidableEq

/-- The session together with the output emitted so far. -/
structure Ctx where
  cli : cli
  out : List Out
deriving DecidableEq

/-- Append one event to the output. -/
def emit (o : Out) (c : Ctx) : Ctx := { c with out := c.out ++ [o] }

/-- Modelled from the spec: `cli_set_flag(x)` of `cli.h`, `flags |= x`. -/
def cli_set_flag (x : Flags) (c : Ctx) : Ctx :=
  { c with cli := { c.cli with flags := c.cli.flags.or x } }

/-- Modelled from the spec: `cli_clr_flag(x)` of `cli.h`, `flags &= ~x`. -/
def cli_clr_flag (x : Flags) (c : Ctx) : Ctx :=
  { c with cli := { c.cli with flags := c.cli.flags.andNot x } }

/-- Modelled from the spec: `cli_tst_flag(x)` of `cli.h`, `flags & x`. -/
def cli_tst_flag (x : Flags) (c : Ctx) : Bool := c.cli.flags.test x

/-- The call `cli_write(msg, len)` with a literal message. -/
def cli_write (msg : List Char) (c : Ctx) : Ctx := emit (Out.write msg) c

def cli_cursor_left (c : Ctx) : Ctx := emit Out.left_arr c

def cli_clear_to_eol (c : Ctx) : Ctx := emit Out.clear_right c

def scrn_bol (c : Ctx) : Ctx := emit Out.bol c

def scrn_cnright (n : Int) (c : Ctx) : Ctx := emit (Out.cnright n) c

/-- The function `cli_clear_line(lineno)`. -/
def cli_clear_line (lineno : Int) (c : Ctx) : Ctx :=
  let c := if lineno > 0 then emit (Out.pos_cursor lineno 0) c
           else cli_write ['\r'] c
  emit Out.clear_line c

/-- The function `cli_display_prompt(t)`; `prompt` is the callback
`this_cli->prompt`, which prints the prompt and returns its length. -/
def cli_display_prompt (prompt : Int → Int) (t : Int) (c : Ctx) : Ctx :=
  let c := cli_write ['\r'] c
  let c := emit (Out.prompt t) { c with cli := { c.cli with plen := prompt t } }
  cli_clear_to_eol c

/-- The function `cli_display_line()`; `ncols` is `this_scrn->ncols`. -/
def cli_display_line (prompt : Int → Int) (ncols : Int) (c : Ctx) : Ctx :=
  let gb := c.cli.gb
  let point := gb_point_offset gb
  let buf := gb_copy_to_buf gb (gb_data_size gb)
  let len : Int := buf.length
  let window := (ncols - c.cli.plen) - 1
  let c := if cli_tst_flag DELETE_CHAR c then
      cli_set_flag (DISPLAY_LINE.or CLEAR_TO_EOL)
        (cli_write [' ', '\x08'] (cli_clr_flag DELETE_CHAR c))
    else c
  let c := if cli_tst_flag CLEAR_LINE c then
      cli_set_flag (DISPLAY_LINE.or DISPLAY_PROMPT)
        (cli_clear_to_eol (scrn_bol (cli_clr_flag CLEAR_LINE c)))
    else c
  let c := if cli_tst_flag CLEAR_TO_EOL c then
      cli_clear_to_eol (cli_clr_flag CLEAR_TO_EOL c)
    else c
  let c := if cli_tst_flag DISPLAY_PROMPT c then
      cli_display_prompt prompt 0 (cli_clr_flag (DISPLAY_PROMPT.or PROMPT_CONTINUE) c)
    else c
  let w := window_range point len window
  let wstart := w.1
  let wend := w.2
  let c := scrn_bol c
  let c := scrn_cnright c.cli.plen c
  let c := emit (Out.write_buf buf wstart (wend - wstart)) c
  let c := cli_clear_to_eol c
  let c := scrn_bol c
  scrn_cnright (c.cli.plen + point) c

/-- Apply `f` to the context `n` times. -/
def repeat_n (f : Ctx → Ctx) : Nat → Ctx → Ctx
  | 0, c => c
  | n + 1, c => repeat_n f n (f c)

/-- The function `cli_redisplay_line()`.  The loop counter and its bound
are `uint32_t`, so the bound is taken modulo `2^32`; `gb_move_gap_to_point`
leaves the logical content and the point as they are. -/
def cli_redisplay_line (prompt : Int → Int) (ncols : Int) (c : Ctx) : Ctx :=
  let c := { c with cli := { c.cli with flags := c.cli.flags.or DISPLAY_PROMPT } }
  let c := cli_display_line prompt ncols c
  let n := (gb_data_size c.cli.gb - gb_point_offset c.cli.gb) % 2 ^ 32
  repeat_n cli_cursor_left n.toNat c

/-! ## A terminal line -/

/-- One character cell of the terminal line. -/
inductive Cell where
  | blank
  | prompt
  | ch (c : Char)
deriving DecidableEq

/-- Modelled from the spec: the terminal (`scrn.h`, the vt100 tables) is
not part of the sources.  The line under the cursor is a column counter and
the content of each cell; columns are not clamped to the screen width:
column 0 after `scrn_bol`, plus `n` after `scrn_cnright(n)`. -/
structure Term where
  col : Int
  cells : Int → Cell

/-- Modelled from the spec: the effect of one output byte on the terminal
line.  Backspace and carriage return move the cursor, every other byte fills the cell under the cursor and advances. -/
def Term.putc (t : Term) (ch : Char) : Term :=
  if ch = '\x08' then { t with col := t.col - 1 }
  else if ch = '\r' then { t with col := 0 }
  else { col := t.col + 1
         cells := fun j => if j = t.col then Cell.ch ch else t.cells j }

/-- Modelled from the spec: the effect of one terminal operation on the
line.  The prompt renderer fills as
many cells as the length it returns.  A slice with a negative offset or
length has no defined effect on the line and is left uninterpreted.  Moving
to another row is outside this one-line model. -/
def Term.step (prompt : Int → Int) (t : Term) : Out → Term
  | Out.write msg => msg.foldl Term.putc t
  | Out.write_buf buf off len =>
      if 0 ≤ off ∧ 0 ≤ len then
        ((buf.drop off.toNat).take len.toNat).foldl Term.putc t
      else t
  | Out.clear_right =>
      { t with cells := fun j => if t.col ≤ j then Cell.blank else t.cells j }
  | Out.clear_line => { t with cells := fun _ => Cell.blank }
  | Out.left_arr => { t with col := t.col - 1 }
  | Out.pos_cursor _ col => { t with col := col }
  | Out.bol => { t with col := 0 }
  | Out.cnright n => { t with col := t.col + n }
  | Out.prompt a =>
      { col := t.col + prompt a
        cells := fun j =>
          if t.col ≤ j ∧ j < t.col + prompt a then Cell.prompt else t.cells j }

/-- The terminal line after a sequence of operations. -/
def Term.run (prompt : Int → Int) (t : Term) (out : List Out) : Term :=
  out.foldl (Term.step prompt) t

/-- An empty line with the cursor in column 0. -/
def Term.init : Term := { col := 0, cells := fun _ => Cell.blank }

/-! ## The cursor-position query (`cli_get_cursor`) -/

/-- The C library predicate `isspace` in the C locale. -/
def isspace (c : Char) : Bool :=
  c = ' ' || c = '\t' || c = '\n' || c = '\x0b' || c = '\x0c' || c = '\r'

/-- The digit loop of `atoi`: accumulate decimal digits until the first
byte that is not a digit (or the terminating NUL). -/
def atoi_digits (acc : Nat) : List Char → Nat
  | [] => acc
  | c :: cs => if c.isDigit then atoi_digits (acc * 10 + (c.toNat - 48)) cs else acc

/-- Saturation of an integer to the range of a 64-bit `long`, as `strtol`
does on overflow. -/
def sat64 (x : Int) : Int := max (-9223372036854775808) (min x 9223372036854775807)

/-- The C library function `atoi` on a NUL-terminated string: skip white
space, take an optional sign, read decimal digits.  C leaves a value outside
the range of `int` undefined; the model follows glibc with a 64-bit `long`,
where `atoi(s)` is `(int) strtol(s, NULL, 10)`: the value is saturated to
`long` and then reduced to 32 bits. -/
def atoi (s : List Char) : Int :=
  let t := s.dropWhile isspace
  if t.head? = some '-' then wrap32 (sat64 (-(atoi_digits 0 t.tail : Int)))
  else if t.head? = some '+' then wrap32 (sat64 (atoi_digits 0 t.tail))
  else wrap32 (sat64 (atoi_digits 0 t))

/-- The scan of `atoi` uses up all of `s`: after the white space and an
optional sign every remaining byte is a digit, so `atoi` goes on to read
the byte that follows `s` in memory. -/
def atoi_runs_off (s : List Char) : Bool :=
  let t := s.dropWhile isspace
  let u := if t.head? = some '-' ∨ t.head? = some '+' then t.tail else t
  u.all Char.isDigit

/-- The C library function `index(s, ch)`: the string from the first
occurrence of `ch` on, or `none` (a null pointer) when there is none. -/
def index (s : List Char) (ch : Char) : Option (List Char) :=
  match s with
  | [] => none
  | c :: cs => if c = ch then some (c :: cs) else index cs ch

/-- The `do ... while (l--)` loop of `cli_get_cursor` (lines 98-105).
`stored` are the bytes written through `p` so far, `input` the bytes that
`cli_read` will deliver.  Modelled from the spec: `cli_read` is a blocking
read, so the loop does not come back (`none`) when the input runs dry.
The result is the stored bytes and the unread input. -/
def read_loop (l : Int) (stored : List Char) : List Char → Option (List Char × List Char)
  | [] => none
  | ch :: rest =>
    if ch = 'R' then some (stored, rest)
    else
      let stored := if ch = '\x00' then stored else stored ++ [ch]
      if l ≠ 0 then read_loop (l - 1) stored rest else some (stored, rest)

/-- How a call of `cli_get_cursor` ends. -/
inductive Outcome where
  /-- The function returned: the values of `*row` and `*col`, the number
  of queries issued, the bytes collected in the last attempt and the unread
  input. -/
  | returned (row col : Int) (queries : Nat) (stored rest : List Char)
  /-- The function is blocked in `cli_read`: the values of `*row` and `*col`
  at that time and the number of queries issued. -/
  | blocked (row col : Int) (queries : Nat)
  /-- An attempt filled all 32 bytes of the buffer, which then holds no NUL,
  and `index` or `atoi` read past its end: from here on the behaviour of the
  C code is undefined.  The values of `*row` and `*col` at that time, the
  number of queries issued and the 32 stored bytes. -/
  | overread (row col : Int) (queries : Nat) (stored : List Char)
  /-- The attempt budget of the model is used up. -/
  | out_of_fuel
deriving DecidableEq

/-- The attempts of `cli_get_cursor` from the label `again:` on, at most
`fuel` of them.  `queries` counts the calls of `scrn_cpos` so far, `row`
and `col` are the current values of `*row` and `*col`.  The buffer is
zero-filled before each attempt, so with fewer than 32 stored bytes the C
string in it is the stored bytes.  With all 32 bytes stored there is no
terminating NUL: `index` reads past the buffer when the bytes hold no `;`,
and either `atoi` reads past it when its scan uses up the bytes it starts
at; the attempt then ends in `Outcome.overread`. -/
def get_cursor_attempts : Nat → Nat → Int → Int → List Char → Outcome
  | 0, _, _, _, _ => Outcome.out_of_fuel
  | fuel + 1, queries, row, col, input =>
    let queries := queries + 1
    match read_loop 31 [] input with
    | none => Outcome.blocked row col queries
    | some (buf, rest) =>
      match index buf ';' with
      | none =>
        if 32 ≤ buf.length then Outcome.overread row col queries buf
        else get_cursor_attempts fuel queries row col rest
      | some p =>
        if 32 ≤ buf.length ∧ (atoi_runs_off (buf.drop 2) ∨ atoi_runs_off p.tail) then
          Outcome.overread row col queries buf
        else
          let r := atoi (buf.drop 2)
          let c := atoi p.tail
          if r = 0 ∨ c = 0 then get_cursor_attempts fuel queries row col rest
          else Outcome.returned r c queries buf rest

/-- The function `cli_get_cursor(row, col)` on the bytes `input` that the
terminal will deliver; `row` and `col` are the values of `*row` and `*col`
before the call.  Every attempt reads at least one byte, so
`input.length + 1` attempts are never used up. -/
def cli_get_cursor (row col : Int) (input : List Char) : Outcome :=
  get_cursor_attempts (input.length + 1) 0 row col input

/-- The decimal digit `d` as a byte. -/
def digit_char (d : Nat) : Char := Char.ofNat (48 + d)

/-- The decimal digits of `n`, most significant first, with `fuel` bounding
the number of digits. -/
def decimal_aux : Nat → Nat → List Char
  | 0, _ => []
  | fuel + 1, n =>
    if n < 10 then [digit_char n]
    else decimal_aux fuel (n / 10) ++ [digit_char (n % 10)]

/-- The decimal notation of `n`. -/
def decimal (n : Nat) : List Char := decimal_aux (n + 1) n

/-- The bytes of a cursor report before its final `R`:
`ESC [ <row digits> ; <col digits>`. -/
def report (row col : Nat) : List Char :=
  ['\x1b', '['] ++ decimal row ++ [';'] ++ decimal col

/-! ## The cursor on a screen of bounded width -/

/-- Modelled from the spec: the cursor column after one output byte on a
screen of `ncols` columns.  Backspace stops at column 0 and printing stops
at the last column `ncols - 1`. -/
def screen_putc (ncols : Int) (col : Int) (ch : Char) : Int :=
  if ch = '\x08' then max 0 (col - 1)
  else if ch = '\r' then 0
  else min (col + 1) (ncols - 1)

/-- Modelled from the spec: the cursor column after one terminal operation
on a screen of `ncols` columns.  It follows `Term.step`, except that
cursor-right (and everything else that advances the cursor) stops at the
last column `ncols - 1` and cursor-left stops at column 0. -/
def screen_step (prompt : Int → Int) (ncols : Int) (col : Int) : Out → Int
  | Out.write msg => msg.foldl (screen_putc ncols) col
  | Out.write_buf buf off len =>
      if 0 ≤ off ∧ 0 ≤ len then
        ((buf.drop off.toNat).take len.toNat).foldl (screen_putc ncols) col
      else col
  | Out.clear_right => col
  | Out.clear_line => col
  | Out.left_arr => max 0 (col - 1)
  | Out.pos_cursor _ c => min c (ncols - 1)
  | Out.bol => 0
  | Out.cnright n => min (col + n) (ncols - 1)
  | Out.prompt a => min (col + prompt a) (ncols - 1)

/-- The cursor column on a screen of `ncols` columns after a sequence of
operations, starting in column `col`. -/
def screen_col (prompt : Int → Int) (ncols : Int) (col : Int) (out : List Out) : Int :=
  out.foldl (screen_step prompt ncols) col

/-! ## Summary of one call of `cli_display_line` -/

/-- The six operations of the repaint (lines 324-332) for a copied line
`buf`, the prompt length `plen` read at that time, the point and the window
`w = (wstart, wend)`. -/
def repaint_out (buf : List Char) (plen point : Int) (w : Int × Int) : List Out :=
  [Out.bol, Out.cnright plen, Out.write_buf buf w.1 (w.2 - w.1), Out.clear_right,
   Out.bol, Out.cnright (plen + point)]

/-- The operations emitted by the four flag blocks (lines 293-311) when the
function is entered with flag word `f`. -/
def flag_phase_out (f : Flags) : List Out :=
  (if f.delete_char then [Out.write [' ', '\x08']] else []) ++
  (if f.clear_line then [Out.bol, Out.clear_right] else []) ++
  (if f.delete_char || f.clear_to_eol then [Out.clear_right] else []) ++
  (if f.clear_line || f.display_prompt then
    [Out.write ['\r'], Out.prompt 0, Out.clear_right] else [])

/-- The flag word on return when the function is entered with `f`. -/
def flags_after (f : Flags) : Flags :=
  { delete_char := false
    clear_line := false
    clear_to_eol := false
    display_prompt := false
    display_line := f.display_line || f.delete_char || f.clear_line
    prompt_continue := f.prompt_continue && !(f.clear_line || f.display_prompt)
    other := f.other }

/-- The cached prompt length on return. -/
def plen_after (prompt : Int → Int) (s : cli) : Int :=
  if s.flags.clear_line || s.flags.display_prompt then prompt 0 else s.plen

/-- The window that one call emits: the point and the length of the line,
with the width formed from the prompt length cached on entry. -/
def window_of (ncols : Int) (s : cli) : Int × Int :=
  window_range (gb_point_offset s.gb) (gb_data_size s.gb) ((ncols - s.plen) - 1)

/-! ## Concrete sessions used by the evaluations below -/

/-- A prompt renderer that always reports a prompt of `n` cells. -/
def const_prompt (n : Int) : Int → Int := fun _ => n

/-- A 20-byte line with the point at offset 15, prompt length 9 cached, and
the given flag word. -/
def line20 (plen : Int) (f : Flags) : Ctx :=
  ⟨⟨⟨"abcdefghijklmnopqrst".toList, 15⟩, plen, f⟩, []⟩

/-- The line `hello` with the point at offset 2 and a 9-cell prompt cached. -/
def line_hello : Ctx := ⟨⟨⟨"hello".toList, 2⟩, 9, Flags.none⟩, []⟩

/-- The line `ab` with the point at offset 1 and a 10-cell prompt cached. -/
def line_ab : Ctx := ⟨⟨⟨"ab".toList, 1⟩, 10, Flags.none⟩, []⟩

/-! ## Theorems about the window -/

theorem window_range_lt (point len window : Int) (h : point < window) :
    window_range point len window = (0, if len < window then len else window) := by
  unfold window_range
  split_ifs <;> simp

theorem window_range_ge (point len window : Int) (h : ¬ point < window) :
    window_range point len window = (point - window, point) := by
  unfold window_range
  simp [h]

theorem wrap32_id (x : Int) (h0 : -2147483648 ≤ x) (h1 : x < 2147483648) : wrap32 x = x := by
  unfold wrap32
  omega

/-- On a line that fits an `int` the 32-bit window block computes what the
unbounded one computes, also for a negative width. -/
theorem window_range32_eq (point len window : Int)
    (h0 : 0 ≤ point) (h1 : point ≤ len) (h2 : len < 2147483648)
    (hw0 : -2147483648 ≤ window) (hw1 : window < 2147483648)
    (hs : point - window < 2147483648) :
    window_range32 point len window = window_range point len window := by
  unfold window_range32 window_range
  split_ifs with hp hl
  · rw [wrap32_id (len - point) (by omega) (by omega),
      wrap32_id (point + (len - point)) (by omega) (by omega)]
  · rw [wrap32_id (window - point) (by omega) (by omega),
      wrap32_id (point + (window - point)) (by omega) (by omega)]
  · rw [wrap32_id (point - window) (by omega) (by omega),
      wrap32_id (point - window + window) (by omega) (by omega)]

theorem window_range32_eq_witness :
    window_range32 15 20 10 = window_range 15 20 10 :=
  window_range32_eq 15 20 10 (by decide) (by decide) (by decide) (by decide) (by decide)
    (by decide)

/-- C1: for `0 ≤ point ≤ total_length` and `window_width ≥ 0` the window
computed by `cli_display_line` satisfies
`0 ≤ wstart ≤ point ≤ wend ≤ total_length`, and `wend - wstart ≤ window_width`
when `window_width > 0`. -/
theorem window_invariant (point len window : Int)
    (h0 : 0 ≤ point) (h1 : point ≤ len) (hw : 0 ≤ window) :
    0 ≤ (window_range point len window).1 ∧
    (window_range point len window).1 ≤ point ∧
    point ≤ (window_range point len window).2 ∧
    (window_range point len window).2 ≤ len ∧
    (0 < window →
      (window_range point len window).2 - (window_range point len window).1 ≤ window) := by
  by_cases hp : point < window
  · rw [window_range_lt point len window hp]
    by_cases hl : len < window
    · simp only [hl, if_true]
      refine ⟨le_refl _, h0, h1, le_refl _, fun _ => ?_⟩
      omega
    · simp only [hl, if_false]
      refine ⟨le_refl _, h0, ?_, ?_, fun _ => ?_⟩ <;> omega
  · rw [window_range_ge point len window hp]
    refine ⟨?_, ?_, le_refl _, h1, fun _ => ?_⟩ <;> simp only <;> omega

theorem window_invariant_witness :
    0 ≤ (window_range 15 20 10).1 ∧
    (window_range 15 20 10).1 ≤ 15 ∧
    (15 : Int) ≤ (window_range 15 20 10).2 ∧
    (window_range 15 20 10).2 ≤ 20 ∧
    (window_range 15 20 10).2 - (window_range 15 20 10).1 ≤ 10 :=
  have h := window_invariant 15 20 10 (by decide) (by decide) (by decide)
  ⟨h.1, h.2.1, h.2.2.1, h.2.2.2.1, h.2.2.2.2 (by decide)⟩

/-- C3: the window computed by `cli_display_line` is the window of the
specification's windowing rules, for every point, length and width, and the
three worked examples evaluate to `(0,5)`, `(5,15)` and `(0,10)`. -/
theorem window_range_eq_spec :
    (∀ point len window : Int,
      window_range point len window = window_spec point len window) ∧
    window_range 2 5 10 = (0, 5) ∧
    window_range 15 20 10 = (5, 15) ∧
    window_range 0 20 10 = (0, 10) := by
  refine ⟨fun point len window => ?_, by decide, by decide, by decide⟩
  unfold window_range window_spec
  by_cases hp : point < window
  · by_cases hl : len < window
    · simp [hp, hl, min_eq_left (le_of_lt hl)]
    · simp [hp, hl, min_eq_right (not_lt.mp hl)]
  · simp [hp]

/-- C4 as stated fails: with a zero-width window and the point at offset 3
of a 5-byte line the code computes `wstart = wend = 3`, not `0`. -/
theorem zero_width_window_counterexample :
    window_range 3 5 0 = (3, 3) ∧ window_range 3 5 0 ≠ (0, 0) := by
  decide

/-- C4 amended: with `window_width = 0` and `point ≥ 0` the code computes
`wstart = wend = point`, an empty slice that sits at the insertion point. -/
theorem zero_width_window (point len : Int) (h0 : 0 ≤ point) :
    window_range point len 0 = (point, point) := by
  rw [window_range_ge point len 0 (not_lt.mpr h0)]
  simp

theorem zero_width_window_witness :
    (0 : Int) ≤ 3 ∧ window_range 3 5 0 = (3, 3) :=
  ⟨by decide, zero_width_window 3 5 (by decide)⟩

/-- C8: for `window_width ≥ 0` and `0 ≤ point < total_length` the window
starts computed for `point` and for `point + 1` differ by at most one. -/
theorem scroll_continuity (point len window : Int)
    (_hw : 0 ≤ window) (_h0 : 0 ≤ point) (_h1 : point < len) :
    |(window_range (point + 1) len window).1 - (window_range point len window).1| ≤ 1 := by
  by_cases hp : point + 1 < window
  · have hp0 : point < window := by omega
    rw [window_range_lt _ _ _ hp, window_range_lt _ _ _ hp0]
    simp
  · by_cases hp0 : point < window
    · rw [window_range_ge _ _ _ hp, window_range_lt _ _ _ hp0]
      have : point + 1 - window = 0 := by omega
      simp [this]
    · rw [window_range_ge _ _ _ hp, window_range_ge _ _ _ hp0]
      have : point + 1 - window - (point - window) = 1 := by omega
      simp [this]

theorem scroll_continuity_witness :
    |(window_range (9 + 1) 20 10).1 - (window_range 9 20 10).1| ≤ 1 :=
  scroll_continuity 9 20 10 (by decide) (by decide) (by decide)

/-! ## One call of `cli_display_line`, in closed form -/

theorem gb_copy_all (gb : gapbuf) : gb_copy_to_buf gb (gb_data_size gb) = gb.data := by
  simp [gb_copy_to_buf, gb_data_size]

theorem gb_copy_length (gb : gapbuf) :
    ((gb_copy_to_buf gb (gb_data_size gb)).length : Int) = gb_data_size gb := by
  rw [gb_copy_all]; rfl

/-- Closed form of `cli_display_line`: the flag blocks emit `flag_phase_out`,
the repaint follows, and the session is left with `flags_after` and
`plen_after`. -/
theorem cli_display_line_eq (prompt : Int → Int) (ncols : Int) (c : Ctx) :
    cli_display_line prompt ncols c =
      { cli := { gb := c.cli.gb
                 plen := plen_after prompt c.cli
                 flags := flags_after c.cli.flags }
        out := c.out ++ flag_phase_out c.cli.flags ++
          repaint_out c.cli.gb.data (plen_after prompt c.cli)
            (gb_point_offset c.cli.gb) (window_of ncols c.cli) } := by
  obtain ⟨⟨gb, plen, ⟨dc, cl, ce, dp, dl, pc, other⟩⟩, out⟩ := c
  simp only [cli_display_line, gb_copy_length, gb_copy_all]
  cases dc <;> cases cl <;> cases ce <;> cases dp <;>
    simp [cli_tst_flag, cli_set_flag, cli_clr_flag,
      cli_write, cli_clear_to_eol, cli_display_prompt, scrn_bol, scrn_cnright, emit,
      Flags.test, Flags.or, Flags.andNot, Flags.none, DELETE_CHAR, CLEAR_LINE,
      CLEAR_TO_EOL, DISPLAY_PROMPT, DISPLAY_LINE, PROMPT_CONTINUE, flag_phase_out,
      flags_after, plen_after, repaint_out, window_of, gb_data_size]

/-! ## The terminal line after a redraw -/

theorem Term.run_append (prompt : Int → Int) (t : Term) (a b : List Out) :
    Term.run prompt t (a ++ b) = Term.run prompt (Term.run prompt t a) b := by
  simp [Term.run, List.foldl_append]

/-- The repaint leaves the cursor in column `plen + point`, whatever the
window start is. -/
theorem repaint_col (prompt : Int → Int) (t : Term) (buf : List Char)
    (plen point : Int) (w : Int × Int) :
    (Term.run prompt t (repaint_out buf plen point w)).col = plen + point := by
  simp [Term.run, repaint_out, Term.step]

/-- On the unbounded line of `Term`, the cursor column after
`cli_display_line` is the prompt length now cached plus the point. -/
theorem display_line_col (prompt : Int → Int) (ncols : Int) (c : Ctx) (t : Term) :
    (Term.run prompt t (cli_display_line prompt ncols c).out).col =
      (cli_display_line prompt ncols c).cli.plen + gb_point_offset c.cli.gb := by
  rw [cli_display_line_eq, Term.run_append, repaint_col]

/-- On a screen of `ncols` columns the repaint leaves the cursor in column
`min (plen + point) (ncols - 1)`. -/
theorem repaint_screen_col (prompt : Int → Int) (ncols col : Int) (buf : List Char)
    (plen point : Int) (w : Int × Int) :
    screen_col prompt ncols col (repaint_out buf plen point w) =
      min (plen + point) (ncols - 1) := by
  simp [screen_col, repaint_out, screen_step]

/-- On a screen of `ncols` columns, a call of `cli_display_line` that leaves
the cached prompt length as it was (the renderer is not invoked, or returns
the cached length) ends with the cursor in column
`prompt_length + point - wstart`, for every flag word, point and width. -/
theorem display_line_screen_col (prompt : Int → Int) (ncols col : Int) (c : Ctx)
    (h : plen_after prompt c.cli = c.cli.plen) :
    screen_col prompt ncols col (cli_display_line prompt ncols c).out =
      (cli_display_line prompt ncols c).cli.plen + gb_point_offset c.cli.gb -
        (window_of ncols c.cli).1 := by
  rw [cli_display_line_eq]
  simp only [screen_col, List.foldl_append]
  rw [← screen_col, repaint_screen_col, h]
  unfold window_of
  by_cases hp : gb_point_offset c.cli.gb < ncols - c.cli.plen - 1
  · rw [window_range_lt _ _ _ hp]
    simp only [sub_zero]
    exact min_eq_left (by omega)
  · rw [window_range_ge _ _ _ hp]
    simp only
    rw [min_eq_right (by omega)]
    omega

theorem display_line_screen_col_witness :
    screen_col (const_prompt 9) 20 0
        (cli_display_line (const_prompt 9) 20 (line20 9 Flags.none)).out =
      (cli_display_line (const_prompt 9) 20 (line20 9 Flags.none)).cli.plen +
        gb_point_offset (line20 9 Flags.none).cli.gb -
        (window_of 20 (line20 9 Flags.none).cli).1 :=
  display_line_screen_col (const_prompt 9) 20 0 (line20 9 Flags.none) (by decide)

/-! ## Repainting twice -/

theorem putc_col_congr (t u : Term) (ch : Char) (h : t.col = u.col) :
    (t.putc ch).col = (u.putc ch).col := by
  unfold Term.putc
  split_ifs <;> simp [h]

theorem putc_cells_congr (t u : Term) (ch : Char) (j : Int) (h : t.col = u.col)
    (hj : t.cells j = u.cells j) : (t.putc ch).cells j = (u.putc ch).cells j := by
  unfold Term.putc
  split_ifs <;> simp [h, hj]

/-- The column after writing a text depends on the starting column only. -/
theorem write_col_congr (l : List Char) :
    ∀ t u : Term, t.col = u.col →
      (l.foldl Term.putc t).col = (l.foldl Term.putc u).col := by
  induction l with
  | nil => intro t u h; simpa using h
  | cons ch l ih =>
    intro t u h
    simpa [List.foldl] using ih _ _ (putc_col_congr t u ch h)

/-- Cells that agree before a text is written from the same column agree
afterwards. -/
theorem write_cells_congr (l : List Char) (j : Int) :
    ∀ t u : Term, t.col = u.col → t.cells j = u.cells j →
      (l.foldl Term.putc t).cells j = (l.foldl Term.putc u).cells j := by
  induction l with
  | nil => intro t u _ hj; simpa using hj
  | cons ch l ih =>
    intro t u h hj
    simpa [List.foldl] using
      ih _ _ (putc_col_congr t u ch h) (putc_cells_congr t u ch j h hj)

/-- Writing a text from the same column on two lines either leaves cell `j`
untouched on both or gives it the same content on both. -/
theorem write_cells_same (l : List Char) (j : Int) :
    ∀ t u : Term, t.col = u.col →
      ((l.foldl Term.putc t).cells j = t.cells j ∧
        (l.foldl Term.putc u).cells j = u.cells j) ∨
      (l.foldl Term.putc t).cells j = (l.foldl Term.putc u).cells j := by
  induction l with
  | nil => intro t u _; left; simp
  | cons ch l ih =>
    intro t u h
    simp only [List.foldl]
    by_cases hw : (t.putc ch).cells j = t.cells j ∧ (u.putc ch).cells j = u.cells j
    · rcases ih (t.putc ch) (u.putc ch) (putc_col_congr t u ch h) with h1 | h1
      · left; exact ⟨h1.1.trans hw.1, h1.2.trans hw.2⟩
      · right; exact h1
    · right
      apply write_cells_congr l j _ _ (putc_col_congr t u ch h)
      revert hw
      unfold Term.putc
      split_ifs <;> simp [h]
      intro hne
      by_cases hj : j = u.col
      · simp [hj]
      · simp [hj] at hne

/-- The effect of the slice write on the line, as in `Term.step`. -/
theorem step_write_buf (prompt : Int → Int) (t : Term) (buf : List Char) (off len : Int) :
    Term.step prompt t (Out.write_buf buf off len) =
      if 0 ≤ off ∧ 0 ≤ len then
        ((buf.drop off.toNat).take len.toNat).foldl Term.putc t
      else t := rfl

/-- Repainting the same window a second time changes neither the cursor
column nor any cell of the line. -/
theorem repaint_twice (prompt : Int → Int) (t : Term) (buf : List Char)
    (plen point : Int) (w : Int × Int) :
    (Term.run prompt (Term.run prompt t (repaint_out buf plen point w))
        (repaint_out buf plen point w)).col =
      (Term.run prompt t (repaint_out buf plen point w)).col ∧
    ∀ j : Int,
      (Term.run prompt (Term.run prompt t (repaint_out buf plen point w))
          (repaint_out buf plen point w)).cells j =
        (Term.run prompt t (repaint_out buf plen point w)).cells j := by
  refine ⟨by rw [repaint_col, repaint_col], fun j => ?_⟩
  simp only [Term.run, repaint_out, List.foldl, step_write_buf]
  by_cases hs : 0 ≤ w.1 ∧ 0 ≤ w.2 - w.1
  · simp only [hs, and_self, if_true, Term.step]
    simp only [zero_add]
    generalize ((buf.drop w.1.toNat).take (w.2 - w.1).toNat) = l
    set ta : Term := { col := plen, cells := t.cells } with hta
    set tb : Term :=
      { col := plen
        cells := fun j => if (l.foldl Term.putc ta).col ≤ j then Cell.blank
                          else (l.foldl Term.putc ta).cells j } with htb
    have hcol : (l.foldl Term.putc tb).col = (l.foldl Term.putc ta).col :=
      write_col_congr l tb ta rfl
    rw [hcol]
    by_cases hj : (l.foldl Term.putc ta).col ≤ j
    · simp [hj]
    · simp only [hj, if_false]
      rcases write_cells_same l j ta tb rfl with h1 | h1
      · rw [h1.2]; simp [htb, hj]
      · exact h1.symm
  · simp only [hs, if_false, Term.step]
    simp only [zero_add]
    by_cases hj : plen ≤ j <;> simp [hj]

/-- Redraw idempotence: when the prompt length cached on entry is the
one cached on return (the renderer is not invoked, or returns the cached
length), a second call of `cli_display_line` changes no cell of the line,
not the cursor column and no flag. -/
theorem redraw_twice_noop (prompt : Int → Int) (ncols : Int) (c : Ctx) (t : Term)
    (h : plen_after prompt c.cli = c.cli.plen) :
    (cli_display_line prompt ncols (cli_display_line prompt ncols c)).cli =
      (cli_display_line prompt ncols c).cli ∧
    (Term.run prompt t
        (cli_display_line prompt ncols (cli_display_line prompt ncols c)).out).col =
      (Term.run prompt t (cli_display_line prompt ncols c).out).col ∧
    ∀ j : Int,
      (Term.run prompt t
          (cli_display_line prompt ncols (cli_display_line prompt ncols c)).out).cells j =
        (Term.run prompt t (cli_display_line prompt ncols c).out).cells j := by
  have hf : flag_phase_out (flags_after c.cli.flags) = [] := by
    simp [flag_phase_out, flags_after]
  have hp : plen_after prompt
      { gb := c.cli.gb, plen := c.cli.plen, flags := flags_after c.cli.flags } = c.cli.plen := by
    simp [plen_after, flags_after]
  have hw : window_of ncols
      { gb := c.cli.gb, plen := c.cli.plen, flags := flags_after c.cli.flags } =
      window_of ncols c.cli := rfl
  have hff : flags_after (flags_after c.cli.flags) = flags_after c.cli.flags := by
    simp [flags_after]
  rw [cli_display_line_eq prompt ncols (cli_display_line prompt ncols c),
    cli_display_line_eq prompt ncols c]
  simp only [h, hf, hp, hw, hff, List.append_nil]
  refine ⟨trivial, ?_, ?_⟩
  · rw [Term.run_append, Term.run_append, repaint_col, repaint_col]
  · intro j
    simp only [Term.run_append]
    exact (repaint_twice prompt _ _ _ _ _).2 j

theorem redraw_twice_noop_witness :
    (Term.run (const_prompt 9) Term.init
        (cli_display_line (const_prompt 9) 20
          (cli_display_line (const_prompt 9) 20 (line20 9 DISPLAY_PROMPT))).out).cells 9 =
      (Term.run (const_prompt 9) Term.init
        (cli_display_line (const_prompt 9) 20 (line20 9 DISPLAY_PROMPT)).out).cells 9 :=
  (redraw_twice_noop (const_prompt 9) 20 (line20 9 DISPLAY_PROMPT) Term.init
    (by decide)).2.2 9

/-! ## Claims about the redraw -/

/-- C2, evaluated where it fails: on an 80-column screen with a stale cached
prompt length 70 and DISPLAY_PROMPT pending, the renderer returns 9.  The
window is taken from the stale length (`80 - 70 - 1 = 9`), so it starts at 6
and `buf[6..15)` is painted from column 9; the cursor is then sent to column
`9 + 15 = 24`, on the unbounded line and on the 80-column screen alike,
while `prompt_length + point - wstart` is `9 + 15 - 6 = 18`. -/
theorem cursor_column_stale_prompt :
    window_of 80 (line20 70 DISPLAY_PROMPT).cli = (6, 15) ∧
    Out.write_buf "abcdefghijklmnopqrst".toList 6 9 ∈
      (cli_display_line (const_prompt 9) 80 (line20 70 DISPLAY_PROMPT)).out ∧
    (cli_display_line (const_prompt 9) 80 (line20 70 DISPLAY_PROMPT)).cli.plen = 9 ∧
    (Term.run (const_prompt 9) Term.init
      (cli_display_line (const_prompt 9) 80 (line20 70 DISPLAY_PROMPT)).out).col = 24 ∧
    screen_col (const_prompt 9) 80 0
      (cli_display_line (const_prompt 9) 80 (line20 70 DISPLAY_PROMPT)).out = 24 ∧
    (cli_display_line (const_prompt 9) 80 (line20 70 DISPLAY_PROMPT)).cli.plen + 15 - 6
      = 18 := by
  decide

/-- C5, evaluated where it fails: a 10-cell prompt on a 10-column screen gives
`window = -1`; for the line `ab` with the point at 1 the code computes
`wstart = 2`, `wend = 1` and calls `cli_write(&buf[2], -1)`: the length is
negative and the start lies past the end of the copied line. -/
theorem negative_window_slice :
    window_of 10 line_ab.cli = (2, 1) ∧
    (cli_display_line (const_prompt 10) 10 line_ab).out =
      [Out.bol, Out.cnright 10, Out.write_buf "ab".toList 2 (-1), Out.clear_right,
       Out.bol, Out.cnright 11] ∧
    ¬ ((0 : Int) ≤ 1 - 2) ∧ ¬ ((2 : Int) ≤ 1) := by
  decide

/-- C6 as stated fails: entered with DELETE_CHAR alone, the function returns
with DISPLAY_LINE set, so the three flags are not all clear. -/
theorem delete_char_alone_counterexample :
    ¬ ((cli_display_line (const_prompt 9) 20 (line20 9 DELETE_CHAR)).cli.flags.test
          DELETE_CHAR = false ∧
       (cli_display_line (const_prompt 9) 20 (line20 9 DELETE_CHAR)).cli.flags.test
          DISPLAY_LINE = false ∧
       (cli_display_line (const_prompt 9) 20 (line20 9 DELETE_CHAR)).cli.flags.test
          CLEAR_TO_EOL = false) := by
  decide

/-- C6 amended: entered with DELETE_CHAR as the only flag set, the function
emits the erase-cell sequence (space, backspace) and a clear-to-end-of-line,
then the line repaint; on return DELETE_CHAR and CLEAR_TO_EOL are clear and
DISPLAY_LINE is the one flag left set. -/
theorem delete_char_alone (prompt : Int → Int) (ncols : Int) (c : Ctx)
    (h : c.cli.flags = DELETE_CHAR) :
    (cli_display_line prompt ncols c).out =
      c.out ++ [Out.write [' ', '\x08'], Out.clear_right] ++
        repaint_out c.cli.gb.data c.cli.plen (gb_point_offset c.cli.gb)
          (window_of ncols c.cli) ∧
    (cli_display_line prompt ncols c).cli.flags.test DELETE_CHAR = false ∧
    (cli_display_line prompt ncols c).cli.flags.test CLEAR_TO_EOL = false ∧
    (cli_display_line prompt ncols c).cli.flags = DISPLAY_LINE := by
  rw [cli_display_line_eq]
  simp [h, flag_phase_out, flags_after, plen_after, DELETE_CHAR, CLEAR_TO_EOL,
    DISPLAY_LINE, Flags.none, Flags.test]

theorem delete_char_alone_witness :
    (cli_display_line (const_prompt 9) 20 (line20 9 DELETE_CHAR)).out =
      (line20 9 DELETE_CHAR).out ++ [Out.write [' ', '\x08'], Out.clear_right] ++
        repaint_out (line20 9 DELETE_CHAR).cli.gb.data (line20 9 DELETE_CHAR).cli.plen
          (gb_point_offset (line20 9 DELETE_CHAR).cli.gb)
          (window_of 20 (line20 9 DELETE_CHAR).cli) ∧
    (cli_display_line (const_prompt 9) 20 (line20 9 DELETE_CHAR)).cli.flags.test
      DELETE_CHAR = false ∧
    (cli_display_line (const_prompt 9) 20 (line20 9 DELETE_CHAR)).cli.flags.test
      CLEAR_TO_EOL = false ∧
    (cli_display_line (const_prompt 9) 20 (line20 9 DELETE_CHAR)).cli.flags = DISPLAY_LINE :=
  delete_char_alone (const_prompt 9) 20 (line20 9 DELETE_CHAR) rfl

/-- C7: for every flag word on entry, the output of `cli_display_line` is the
output of the flag blocks followed by the repaint; when DELETE_CHAR was set
the flag blocks emit a clear-to-end-of-line, when CLEAR_LINE was set they
invoke the prompt renderer (and its length is cached), and on return
DELETE_CHAR, CLEAR_LINE, CLEAR_TO_EOL and DISPLAY_PROMPT are all clear. -/
theorem escalated_flags_honoured (prompt : Int → Int) (ncols : Int) (c : Ctx) :
    ∃ pre : List Out,
      (cli_display_line prompt ncols c).out =
        c.out ++ pre ++
          repaint_out c.cli.gb.data (cli_display_line prompt ncols c).cli.plen
            (gb_point_offset c.cli.gb) (window_of ncols c.cli) ∧
      (cli_tst_flag DELETE_CHAR c = true → Out.clear_right ∈ pre) ∧
      (cli_tst_flag CLEAR_LINE c = true →
        Out.prompt 0 ∈ pre ∧ (cli_display_line prompt ncols c).cli.plen = prompt 0) ∧
      cli_tst_flag DELETE_CHAR (cli_display_line prompt ncols c) = false ∧
      cli_tst_flag CLEAR_LINE (cli_display_line prompt ncols c) = false ∧
      cli_tst_flag CLEAR_TO_EOL (cli_display_line prompt ncols c) = false ∧
      cli_tst_flag DISPLAY_PROMPT (cli_display_line prompt ncols c) = false := by
  refine ⟨flag_phase_out c.cli.flags, ?_⟩
  rw [cli_display_line_eq]
  obtain ⟨⟨gb, plen, ⟨dc, cl, ce, dp, dl, pc, other⟩⟩, out⟩ := c
  cases dc <;> cases cl <;>
    simp [flag_phase_out, flags_after, plen_after, cli_tst_flag, Flags.test,
      DELETE_CHAR, CLEAR_LINE, CLEAR_TO_EOL, DISPLAY_PROMPT, Flags.none]

theorem escalated_flags_honoured_witness :
    cli_tst_flag DELETE_CHAR (line20 9 (DELETE_CHAR.or CLEAR_LINE)) = true ∧
    cli_tst_flag CLEAR_LINE (line20 9 (DELETE_CHAR.or CLEAR_LINE)) = true ∧
    ∃ pre : List Out,
      (cli_display_line (const_prompt 9) 20 (line20 9 (DELETE_CHAR.or CLEAR_LINE))).out =
        pre ++ repaint_out "abcdefghijklmnopqrst".toList 9 15 (5, 15) ∧
      Out.clear_right ∈ pre ∧ Out.prompt 0 ∈ pre ∧
      (cli_display_line (const_prompt 9) 20
        (line20 9 (DELETE_CHAR.or CLEAR_LINE))).cli.flags = DISPLAY_LINE := by
  obtain ⟨pre, h1, h2, h3, h4, h5, h6, h7⟩ :=
    escalated_flags_honoured (const_prompt 9) 20 (line20 9 (DELETE_CHAR.or CLEAR_LINE))
  exact ⟨by decide, by decide, pre, h1, h2 (by decide), (h3 (by decide)).1, by decide⟩

/-- C9, evaluated where it fails: with a stale cached prompt length 0, a
renderer that reports 9 cells and DISPLAY_PROMPT pending, the first call
paints `buf[0..19)` (width 19 from the stale length) and the second call
paints `buf[5..15)` (width 10): the cell in column 9 changes from `a` to `f`,
while the flags and the cursor column are the same after both calls. -/
theorem redraw_twice_stale_prompt :
    (Term.run (const_prompt 9) Term.init
      (cli_display_line (const_prompt 9) 20 (line20 0 DISPLAY_PROMPT)).out).cells 9
        = Cell.ch 'a' ∧
    (Term.run (const_prompt 9) Term.init
      (cli_display_line (const_prompt 9) 20
        (cli_display_line (const_prompt 9) 20 (line20 0 DISPLAY_PROMPT))).out).cells 9
        = Cell.ch 'f' ∧
    (cli_display_line (const_prompt 9) 20
        (cli_display_line (const_prompt 9) 20 (line20 0 DISPLAY_PROMPT))).cli.flags =
      (cli_display_line (const_prompt 9) 20 (line20 0 DISPLAY_PROMPT)).cli.flags ∧
    (Term.run (const_prompt 9) Term.init
      (cli_display_line (const_prompt 9) 20
        (cli_display_line (const_prompt 9) 20 (line20 0 DISPLAY_PROMPT))).out).col =
      (Term.run (const_prompt 9) Term.init
        (cli_display_line (const_prompt 9) 20 (line20 0 DISPLAY_PROMPT)).out).col := by
  decide

/-- C10, evaluated where it fails: for the line `hello` with the point at 2
and a 9-cell prompt on an 80-column screen nothing is scrolled
(`wstart = 0`); `cli_display_line` leaves the cursor in column 11 and the
three cursor-left moves of `cli_redisplay_line` take it to column 8, not to
`prompt_length + point - wstart = 11`. -/
theorem redisplay_line_cursor :
    window_of 80 line_hello.cli = (0, 5) ∧
    (Term.run (const_prompt 9) Term.init
      (cli_display_line (const_prompt 9) 80
        { line_hello with cli := { line_hello.cli with flags := DISPLAY_PROMPT } }).out).col
      = 11 ∧
    (Term.run (const_prompt 9) Term.init
      (cli_redisplay_line (const_prompt 9) 80 line_hello).out).col = 8 ∧
    (cli_redisplay_line (const_prompt 9) 80 line_hello).cli.plen + 2 - 0 = 11 := by
  decide

/-! ## Claims about `cli_clear_line` and the frame of `cli_display_line` -/

/-- C11 as stated fails: `cli_clear_line(0)` and `cli_clear_line(-2)` emit the
carriage return and the clear-line sequence, without positioning the cursor
at row 0 or row -2. -/
theorem clear_line_target_counterexample :
    (cli_clear_line 0 line_ab).out = [Out.write ['\r'], Out.clear_line] ∧
    Out.pos_cursor 0 0 ∉ (cli_clear_line 0 line_ab).out ∧
    (cli_clear_line (-2) line_ab).out = [Out.write ['\r'], Out.clear_line] ∧
    Out.pos_cursor (-2) 0 ∉ (cli_clear_line (-2) line_ab).out := by
  decide

/-- C11 amended: `cli_clear_line(lineno)` emits a carriage return and no
cursor positioning exactly when `lineno ≤ 0` (so also for -1); for every
`lineno > 0` it first positions the cursor at row `lineno`, column 0; in both
cases the clear-line sequence is the last thing emitted, and the session is
left as it was. -/
theorem clear_line_target (lineno : Int) (c : Ctx) :
    (lineno ≤ 0 →
      (cli_clear_line lineno c).out = c.out ++ [Out.write ['\r'], Out.clear_line]) ∧
    (0 < lineno →
      (cli_clear_line lineno c).out =
        c.out ++ [Out.pos_cursor lineno 0, Out.clear_line]) ∧
    (cli_clear_line lineno c).out.getLast? = some Out.clear_line ∧
    (cli_clear_line lineno c).cli = c.cli := by
  unfold cli_clear_line
  by_cases h : lineno > 0
  · have h2 : ¬ lineno ≤ 0 := not_le.mpr h
    simp [h, h2, emit]
  · have h2 : lineno ≤ 0 := not_lt.mp h
    simp [h, h2, emit, cli_write]

theorem clear_line_target_witness :
    (cli_clear_line (-1) line_ab).out = [Out.write ['\r'], Out.clear_line] ∧
    (cli_clear_line 3 line_ab).out = [Out.pos_cursor 3 0, Out.clear_line] :=
  ⟨(clear_line_target (-1) line_ab).1 (by decide),
   (clear_line_target 3 line_ab).2.1 (by decide)⟩

/-- C13, evaluated where it fails: on a 40-column screen with a stale cached
prompt length 30 and CLEAR_LINE pending, the renderer is invoked and returns
9, so the claim asks for `window_width = 40 - 9 - 1 = 30` and the whole
20-byte line `buf[0..20)`; the code uses `40 - 30 - 1 = 9` and writes the nine
bytes `buf[6..15)`, after caching the new length 9. -/
theorem window_width_stale_prompt :
    Out.prompt 0 ∈ (cli_display_line (const_prompt 9) 40 (line20 30 CLEAR_LINE)).out ∧
    (cli_display_line (const_prompt 9) 40 (line20 30 CLEAR_LINE)).cli.plen = 9 ∧
    window_range 15 20 (40 - 9 - 1) = (0, 20) ∧
    window_range 15 20 (40 - 30 - 1) = (6, 15) ∧
    Out.write_buf "abcdefghijklmnopqrst".toList 6 9 ∈
      (cli_display_line (const_prompt 9) 40 (line20 30 CLEAR_LINE)).out ∧
    Out.write_buf "abcdefghijklmnopqrst".toList 0 20 ∉
      (cli_display_line (const_prompt 9) 40 (line20 30 CLEAR_LINE)).out := by
  decide

/-- C16: `cli_display_line` leaves the buffer content and the insertion point
unchanged, leaves every bit of the flag word other than DELETE_CHAR,
CLEAR_LINE, CLEAR_TO_EOL, DISPLAY_PROMPT, DISPLAY_LINE and PROMPT_CONTINUE
unchanged, and leaves the cached prompt length unchanged unless
DISPLAY_PROMPT or CLEAR_LINE was set on entry, in which case it becomes the
value returned by the prompt renderer. -/
theorem display_line_frame (prompt : Int → Int) (ncols : Int) (c : Ctx) :
    (cli_display_line prompt ncols c).cli.gb = c.cli.gb ∧
    (cli_display_line prompt ncols c).cli.flags.other = c.cli.flags.other ∧
    (cli_tst_flag (DISPLAY_PROMPT.or CLEAR_LINE) c = false →
      (cli_display_line prompt ncols c).cli.plen = c.cli.plen) ∧
    (cli_tst_flag (DISPLAY_PROMPT.or CLEAR_LINE) c = true →
      (cli_display_line prompt ncols c).cli.plen = prompt 0) := by
  rw [cli_display_line_eq]
  obtain ⟨⟨gb, plen, ⟨dc, cl, ce, dp, dl, pc, other⟩⟩, out⟩ := c
  cases cl <;> cases dp <;>
    simp [flags_after, plen_after, cli_tst_flag, Flags.test, Flags.or, Flags.none,
      DISPLAY_PROMPT, CLEAR_LINE]

theorem display_line_frame_witness :
    (cli_display_line (const_prompt 9) 20 (line20 7 DELETE_CHAR)).cli.gb =
      (line20 7 DELETE_CHAR).cli.gb ∧
    (cli_display_line (const_prompt 9) 20 (line20 7 DELETE_CHAR)).cli.plen = 7 ∧
    (cli_display_line (const_prompt 9) 20 (line20 7 DISPLAY_PROMPT)).cli.plen = 9 :=
  ⟨(display_line_frame (const_prompt 9) 20 (line20 7 DELETE_CHAR)).1,
   (display_line_frame (const_prompt 9) 20 (line20 7 DELETE_CHAR)).2.2.1 (by decide),
   (display_line_frame (const_prompt 9) 20 (line20 7 DISPLAY_PROMPT)).2.2.2 (by decide)⟩

/-! ## The read loop of `cli_get_cursor` -/

/-- Every store of the read loop is in bounds: starting with counter `l`,
at most `l + 1` bytes are added to the stored ones. -/
theorem read_loop_stored_le (input : List Char) :
    ∀ (l : Int) (stored s rest : List Char), 0 ≤ l →
      read_loop l stored input = some (s, rest) →
      (s.length : Int) ≤ stored.length + l + 1 := by
  induction input with
  | nil => intro l stored s rest _ h; simp [read_loop] at h
  | cons ch input ih =>
    intro l stored s rest hl h
    unfold read_loop at h
    by_cases hR : ch = 'R'
    · simp only [hR, if_true, Option.some.injEq, Prod.mk.injEq] at h
      rw [← h.1]; omega
    · simp only [hR, if_false] at h
      by_cases h0 : l = 0
      · simp only [h0, ne_eq, not_true_eq_false, if_false, Option.some.injEq,
          Prod.mk.injEq] at h
        rw [← h.1, h0]
        split_ifs <;> simp
      · simp only [ne_eq, h0, not_false_eq_true, if_true] at h
        have hs : ((if ch = '\x00' then stored else stored ++ [ch]).length : Int)
            ≤ stored.length + 1 := by
          split_ifs <;> simp
        have := ih (l - 1) _ s rest (by omega) h
        omega

/-- A completed read loop has consumed at least one byte. -/
theorem read_loop_rest_lt (input : List Char) :
    ∀ (l : Int) (stored s rest : List Char),
      read_loop l stored input = some (s, rest) → rest.length < input.length := by
  induction input with
  | nil => intro l stored s rest h; simp [read_loop] at h
  | cons ch input ih =>
    intro l stored s rest h
    unfold read_loop at h
    by_cases hR : ch = 'R'
    · simp only [hR, if_true, Option.some.injEq, Prod.mk.injEq] at h
      rw [← h.2]; simp
    · simp only [hR, if_false] at h
      by_cases h0 : l = 0
      · simp only [h0, ne_eq, not_true_eq_false, if_false, Option.some.injEq,
          Prod.mk.injEq] at h
        rw [← h.2]; simp
      · simp only [ne_eq, h0, not_false_eq_true, if_true] at h
        have := ih (l - 1) _ s rest h
        simp only [List.length_cons]
        omega

/-- A report without `R` and NUL bytes that fits the counter is stored
whole, and the loop stops at the `R` behind it. -/
theorem read_loop_report (xs : List Char) :
    ∀ (l : Int) (stored rest : List Char),
      (∀ c ∈ xs, c ≠ 'R' ∧ c ≠ '\x00') → (xs.length : Int) ≤ l →
      read_loop l stored (xs ++ 'R' :: rest) = some (stored ++ xs, rest) := by
  induction xs with
  | nil => intro l stored rest _ _; simp [read_loop]
  | cons ch xs ih =>
    intro l stored rest hx hl
    have hc := hx ch (List.mem_cons_self _ _)
    have hl0 : l ≠ 0 := by simp only [List.length_cons] at hl; push_cast at hl; omega
    simp only [List.cons_append, read_loop, hc.1, hc.2, if_false, ne_eq, hl0,
      not_false_eq_true, if_true, List.append_eq]
    rw [ih (l - 1) (stored ++ [ch]) rest (fun c hm => hx c (List.mem_cons_of_mem _ hm))
      (by simp only [List.length_cons] at hl; push_cast at hl; omega)]
    simp

/-- C14, evaluated where it fails: when the terminal sends 32 bytes that are
neither `R` nor NUL, the loop body runs 32 times (the counter is tested
after the store, for the values 31 down to 0) and stores all 32 bytes, so
the 32-byte buffer is full and holds no NUL byte; the claim allows 31. -/
theorem read_loop_fills_buffer :
    read_loop 31 [] (List.replicate 32 'x' ++ ['R']) =
      some (List.replicate 32 'x', ['R']) ∧
    (List.replicate 32 'x').length = 32 ∧
    ¬ ((List.replicate 32 'x').length ≤ 31) ∧
    '\x00' ∉ List.replicate 32 'x' := by
  decide

/-! ## The attempts of `cli_get_cursor` -/

/-- One pass from `again:` to the end of the function, as an equation. -/
theorem get_cursor_attempts_succ (fuel q : Nat) (row col : Int) (input : List Char) :
    get_cursor_attempts (fuel + 1) q row col input =
      match read_loop 31 [] input with
      | none => Outcome.blocked row col (q + 1)
      | some (buf, rest) =>
        match index buf ';' with
        | none =>
          if 32 ≤ buf.length then Outcome.overread row col (q + 1) buf
          else get_cursor_attempts fuel (q + 1) row col rest
        | some p =>
          if 32 ≤ buf.length ∧ (atoi_runs_off (buf.drop 2) ∨ atoi_runs_off p.tail) then
            Outcome.overread row col (q + 1) buf
          else if atoi (buf.drop 2) = 0 ∨ atoi p.tail = 0 then
            get_cursor_attempts fuel (q + 1) row col rest
          else Outcome.returned (atoi (buf.drop 2)) (atoi p.tail) (q + 1) buf rest := rfl

/-- The attempt budget is never used up while it exceeds the input length. -/
theorem get_cursor_attempts_fuel (fuel : Nat) :
    ∀ (q : Nat) (row col : Int) (input : List Char), input.length < fuel →
      get_cursor_attempts fuel q row col input ≠ Outcome.out_of_fuel := by
  induction fuel with
  | zero => intro q row col input h; omega
  | succ fuel ih =>
    intro q row col input h
    rw [get_cursor_attempts_succ]
    cases hr : read_loop 31 [] input with
    | none => simp
    | some br =>
      obtain ⟨buf, rest⟩ := br
      have hlt := read_loop_rest_lt input 31 [] buf rest hr
      have hrec := ih (q + 1) row col rest (by omega)
      cases hi : index buf ';' with
      | none =>
        simp only [hi]
        split_ifs
        · simp
        · exact hrec
      | some p =>
        simp only [hi]
        split_ifs
        · simp
        · exact hrec
        · simp

/-- What holds whenever the attempts end in a return, in a blocked read or
in a read past the buffer. -/
theorem get_cursor_attempts_spec (fuel : Nat) :
    ∀ (q : Nat) (row col : Int) (input : List Char),
      (∀ r c q2 s rest,
        get_cursor_attempts fuel q row col input = Outcome.returned r c q2 s rest →
        q < q2 ∧ ∃ p, index s ';' = some p ∧ r = atoi (s.drop 2) ∧ c = atoi p.tail ∧
          r ≠ 0 ∧ c ≠ 0) ∧
      (∀ r c q2,
        get_cursor_attempts fuel q row col input = Outcome.blocked r c q2 →
        q < q2 ∧ r = row ∧ c = col) ∧
      (∀ r c q2 s,
        get_cursor_attempts fuel q row col input = Outcome.overread r c q2 s →
        q < q2 ∧ r = row ∧ c = col ∧ 32 ≤ s.length) := by
  induction fuel with
  | zero => intro q row col input; simp [get_cursor_attempts]
  | succ fuel ih =>
    intro q row col input
    rw [get_cursor_attempts_succ]
    cases hr : read_loop 31 [] input with
    | none =>
      refine ⟨fun r c q2 s rest h => by simp at h, fun r c q2 h => ?_,
        fun r c q2 s h => by simp at h⟩
      simp only [Outcome.blocked.injEq] at h
      omega
    | some br =>
      obtain ⟨buf, rest⟩ := br
      have hrec := ih (q + 1) row col rest
      have hrec2 : (∀ r c q2 s rest2,
          get_cursor_attempts fuel (q + 1) row col rest = Outcome.returned r c q2 s rest2 →
          q < q2 ∧ ∃ p, index s ';' = some p ∧ r = atoi (s.drop 2) ∧ c = atoi p.tail ∧
            r ≠ 0 ∧ c ≠ 0) ∧
        (∀ r c q2,
          get_cursor_attempts fuel (q + 1) row col rest = Outcome.blocked r c q2 →
          q < q2 ∧ r = row ∧ c = col) ∧
        (∀ r c q2 s,
          get_cursor_attempts fuel (q + 1) row col rest = Outcome.overread r c q2 s →
          q < q2 ∧ r = row ∧ c = col ∧ 32 ≤ s.length) :=
        ⟨fun r c q2 s rest2 h => by
            obtain ⟨h1, h2⟩ := hrec.1 r c q2 s rest2 h
            exact ⟨by omega, h2⟩,
         fun r c q2 h => by
            obtain ⟨h1, h2⟩ := hrec.2.1 r c q2 h
            exact ⟨by omega, h2⟩,
         fun r c q2 s h => by
            obtain ⟨h1, h2⟩ := hrec.2.2 r c q2 s h
            exact ⟨by omega, h2⟩⟩
      have hover : ∀ (hlen : 32 ≤ buf.length),
          (∀ r c q2 s rest2,
            Outcome.overread row col (q + 1) buf = Outcome.returned r c q2 s rest2 →
            q < q2 ∧ ∃ p, index s ';' = some p ∧ r = atoi (s.drop 2) ∧ c = atoi p.tail ∧
              r ≠ 0 ∧ c ≠ 0) ∧
          (∀ r c q2,
            Outcome.overread row col (q + 1) buf = Outcome.blocked r c q2 →
            q < q2 ∧ r = row ∧ c = col) ∧
          (∀ r c q2 s,
            Outcome.overread row col (q + 1) buf = Outcome.overread r c q2 s →
            q < q2 ∧ r = row ∧ c = col ∧ 32 ≤ s.length) := by
        intro hlen
        refine ⟨fun r c q2 s rest2 h => by simp at h, fun r c q2 h => by simp at h,
          fun r c q2 s h => ?_⟩
        simp only [Outcome.overread.injEq] at h
        obtain ⟨h1, h2, h3, h4⟩ := h
        subst h1 h2 h3 h4
        exact ⟨by omega, rfl, rfl, hlen⟩
      cases hi : index buf ';' with
      | none =>
        dsimp only
        rw [hi]; dsimp only
        split_ifs with hl
        · simpa using hover hl
        · exact hrec2
      | some p =>
        dsimp only
        rw [hi]; dsimp only
        split_ifs with hl hz
        · simpa using hover hl.1
        · exact hrec2
        · refine ⟨fun r c q2 s rest2 h => ?_, fun r c q2 h => by simp at h,
            fun r c q2 s h => by simp at h⟩
          simp only [Outcome.returned.injEq] at h
          obtain ⟨h1, h2, h3, h4, _⟩ := h
          subst h1 h2 h3 h4
          rw [not_or] at hz
          exact ⟨by omega, p, hi, rfl, rfl, hz.1, hz.2⟩

/-- The runs of `cli_get_cursor` that stay inside the buffer.  Whenever the
function returns, the bytes collected in the last attempt contain a `;`, the
returned `*row` and `*col` are the two parsed values and both are non-zero.
An attempt that stored at most 31 bytes with no `;` among them, or with a
row or column that parses to 0, goes back to `again:` with `*row` and `*col`
as they were and one more query to come.  A call that is blocked in
`cli_read`, or that has read past the buffer, has written nothing to `*row`
and `*col`. -/
theorem get_cursor_defined_runs :
    (∀ (row col : Int) (input : List Char) (r c : Int) (q : Nat) (s rest : List Char),
      cli_get_cursor row col input = Outcome.returned r c q s rest →
      0 < q ∧ ∃ p, index s ';' = some p ∧ r = atoi (s.drop 2) ∧ c = atoi p.tail ∧
        r ≠ 0 ∧ c ≠ 0) ∧
    (∀ (fuel q : Nat) (row col : Int) (input s rest : List Char),
      read_loop 31 [] input = some (s, rest) → s.length < 32 →
      (index s ';' = none ∨ atoi (s.drop 2) = 0 ∨
        ∃ p, index s ';' = some p ∧ atoi p.tail = 0) →
      get_cursor_attempts (fuel + 1) q row col input =
        get_cursor_attempts fuel (q + 1) row col rest) ∧
    (∀ (row col : Int) (input : List Char) (r c : Int) (q : Nat),
      cli_get_cursor row col input = Outcome.blocked r c q → r = row ∧ c = col) ∧
    (∀ (row col : Int) (input : List Char) (r c : Int) (q : Nat) (s : List Char),
      cli_get_cursor row col input = Outcome.overread r c q s → r = row ∧ c = col) ∧
    (∀ (row col : Int) (input : List Char),
      cli_get_cursor row col input ≠ Outcome.out_of_fuel) := by
  refine ⟨fun row col input r c q s rest h => ?_, ?_, fun row col input r c q h => ?_,
    fun row col input r c q s h => ?_, fun row col input => ?_⟩
  · exact (get_cursor_attempts_spec _ 0 row col input).1 r c q s rest h
  · intro fuel q row col input s rest hr hlen hbad
    have hl : ¬ 32 ≤ s.length := by omega
    rw [get_cursor_attempts_succ, hr]
    cases hi : index s ';' with
    | none => simp only [hi, hl, if_false]
    | some p =>
      simp only [hi, hl, false_and, if_false]
      have hz : atoi (s.drop 2) = 0 ∨ atoi p.tail = 0 := by
        rcases hbad with h | h | ⟨p2, h1, h2⟩
        · rw [hi] at h; cases h
        · exact Or.inl h
        · rw [hi] at h1; cases h1; exact Or.inr h2
      rw [if_pos hz]
  · exact ((get_cursor_attempts_spec _ 0 row col input).2.1 r c q h).2
  · have := (get_cursor_attempts_spec _ 0 row col input).2.2 r c q s h
    exact ⟨this.2.1, this.2.2.1⟩
  · exact get_cursor_attempts_fuel _ 0 row col input (Nat.lt_succ_self _)

theorem get_cursor_defined_runs_witness :
    cli_get_cursor 7 7 ("\x1b[;5R".toList ++ (report 24 80 ++ ['R'])) =
      Outcome.returned 24 80 2 (report 24 80) [] ∧
    (∃ p, index (report 24 80) ';' = some p ∧ (24 : Int) = atoi ((report 24 80).drop 2) ∧
      (80 : Int) = atoi p.tail ∧ (24 : Int) ≠ 0 ∧ (80 : Int) ≠ 0) ∧
    get_cursor_attempts (11 + 1) 0 7 7 ("\x1b[;5R".toList ++ (report 24 80 ++ ['R'])) =
      get_cursor_attempts 11 (0 + 1) 7 7 (report 24 80 ++ ['R']) ∧
    cli_get_cursor 7 7 "\x1b[;5R".toList = Outcome.blocked 7 7 2 :=
  ⟨by decide,
   (get_cursor_defined_runs.1 7 7 ("\x1b[;5R".toList ++ (report 24 80 ++ ['R']))
      24 80 2 (report 24 80) [] (by decide)).2,
   get_cursor_defined_runs.2.1 11 0 7 7
      ("\x1b[;5R".toList ++ (report 24 80 ++ ['R'])) "\x1b[;5".toList
      (report 24 80 ++ ['R']) (by decide) (by decide) (Or.inr (Or.inl (by decide))),
   by decide⟩

theorem digit_char_isDigit (d : Nat) (h : d < 10) : (digit_char d).isDigit = true := by
  interval_cases d <;> decide

theorem digit_char_value (d : Nat) (h : d < 10) : (digit_char d).toNat - 48 = d := by
  interval_cases d <;> decide

/-- A digit is none of the bytes that the parser treats specially. -/
theorem isDigit_plain (c : Char) (h : c.isDigit = true) :
    c ≠ 'R' ∧ c ≠ '\x00' ∧ c ≠ ';' ∧ c ≠ '-' ∧ c ≠ '+' ∧ isspace c = false := by
  refine ⟨?_, ?_, ?_, ?_, ?_, ?_⟩
  · rintro rfl; exact absurd h (by decide)
  · rintro rfl; exact absurd h (by decide)
  · rintro rfl; exact absurd h (by decide)
  · rintro rfl; exact absurd h (by decide)
  · rintro rfl; exact absurd h (by decide)
  · have h1 : c ≠ ' ' := by rintro rfl; exact absurd h (by decide)
    have h2 : c ≠ '\t' := by rintro rfl; exact absurd h (by decide)
    have h3 : c ≠ '\n' := by rintro rfl; exact absurd h (by decide)
    have h4 : c ≠ '\x0b' := by rintro rfl; exact absurd h (by decide)
    have h5 : c ≠ '\x0c' := by rintro rfl; exact absurd h (by decide)
    have h6 : c ≠ '\r' := by rintro rfl; exact absurd h (by decide)
    simp [isspace, h1, h2, h3, h4, h5, h6]

theorem decimal_aux_isDigit (fuel : Nat) :
    ∀ (n : Nat) (c : Char), c ∈ decimal_aux fuel n → c.isDigit = true := by
  induction fuel with
  | zero => intro n c h; simp [decimal_aux] at h
  | succ fuel ih =>
    intro n c h
    unfold decimal_aux at h
    split_ifs at h with h10
    · rw [List.mem_singleton] at h
      rw [h]; exact digit_char_isDigit n h10
    · rw [List.mem_append, List.mem_singleton] at h
      rcases h with h | h
      · exact ih _ c h
      · rw [h]; exact digit_char_isDigit _ (Nat.mod_lt _ (by decide))

theorem decimal_isDigit (n : Nat) (c : Char) (h : c ∈ decimal n) : c.isDigit = true :=
  decimal_aux_isDigit (n + 1) n c h

theorem decimal_ne_nil (n : Nat) : decimal n ≠ [] := by
  unfold decimal decimal_aux
  split_ifs <;> simp

/-- The digit loop reads the decimal notation of `n` back as `n`, shifting
what it has accumulated before. -/
theorem atoi_digits_decimal_aux (fuel : Nat) :
    ∀ (n acc : Nat) (rest : List Char), n < fuel →
      atoi_digits acc (decimal_aux fuel n ++ rest) =
        atoi_digits (acc * 10 ^ (decimal_aux fuel n).length + n) rest := by
  induction fuel with
  | zero => intro n acc rest h; omega
  | succ fuel ih =>
    intro n acc rest h
    unfold decimal_aux
    split_ifs with h10
    · simp [atoi_digits, digit_char_isDigit n h10, digit_char_value n h10]
    · have hd : n / 10 < fuel := by omega
      have hm : n % 10 < 10 := Nat.mod_lt _ (by decide)
      rw [List.append_assoc, ih (n / 10) acc _ hd]
      simp only [List.singleton_append, atoi_digits, digit_char_isDigit _ hm, if_true,
        digit_char_value _ hm, List.length_append, List.length_singleton]
      congr 1
      rw [pow_succ]
      have := Nat.div_add_mod n 10
      nlinarith [this]

theorem atoi_digits_stop (acc : Nat) (rest : List Char)
    (h : ∀ c, rest.head? = some c → c.isDigit = false) : atoi_digits acc rest = acc := by
  cases rest with
  | nil => rfl
  | cons c cs => simp [atoi_digits, h c rfl]

theorem sat64_id (x : Int) (h0 : -9223372036854775808 ≤ x) (h1 : x ≤ 9223372036854775807) :
    sat64 x = x := by
  unfold sat64
  rw [min_eq_left h1, max_eq_right h0]

/-- The function `atoi` reads the decimal notation of `n`, followed by the end
of the string or by a byte that is not a digit, as `n` saturated to 64 bits
and reduced to 32 bits. -/
theorem atoi_decimal (n : Nat) (rest : List Char)
    (h : ∀ c, rest.head? = some c → c.isDigit = false) :
    atoi (decimal n ++ rest) = wrap32 (sat64 n) := by
  obtain ⟨d, ds, hd⟩ := List.exists_cons_of_ne_nil (decimal_ne_nil n)
  have hdig : d.isDigit = true := decimal_isDigit n d (by rw [hd]; exact List.mem_cons_self _ _)
  obtain ⟨_, _, _, hm, hp, hs⟩ := isDigit_plain d hdig
  have hval : atoi_digits 0 (decimal n ++ rest) = n := by
    unfold decimal
    rw [atoi_digits_decimal_aux (n + 1) n 0 rest (Nat.lt_succ_self _)]
    simp [atoi_digits_stop _ rest h]
  have hdw : List.dropWhile isspace (decimal n ++ rest) = decimal n ++ rest := by
    rw [hd]; simp [List.dropWhile, hs]
  have hh : (decimal n ++ rest).head? = some d := by rw [hd]; rfl
  unfold atoi
  simp only [hdw, hh, hval]
  simp [hm, hp]

theorem index_append (xs ys : List Char) (ch : Char) (h : ch ∉ xs) :
    index (xs ++ ch :: ys) ch = some (ch :: ys) := by
  induction xs with
  | nil => simp [index]
  | cons x xs ih =>
    have hx : x ≠ ch := fun e => h (e ▸ List.mem_cons_self _ _)
    have hxs : ch ∉ xs := fun e => h (List.mem_cons_of_mem _ e)
    simp [index, hx, ih hxs]

theorem report_plain (row col : Nat) (c : Char) (h : c ∈ report row col) :
    c ≠ 'R' ∧ c ≠ '\x00' := by
  simp only [report, List.mem_append, List.mem_cons, List.mem_singleton,
    List.not_mem_nil, or_false] at h
  rcases h with ((h | h) | h) | h
  · rcases h with h | h <;> rw [h] <;> decide
  · exact ⟨(isDigit_plain c (decimal_isDigit row c h)).1,
      (isDigit_plain c (decimal_isDigit row c h)).2.1⟩
  · rw [h]; decide
  · exact ⟨(isDigit_plain c (decimal_isDigit col c h)).1,
      (isDigit_plain c (decimal_isDigit col c h)).2.1⟩

theorem report_index (row col : Nat) :
    index (report row col) ';' = some (';' :: decimal col) := by
  have h : ';' ∉ ['\x1b', '['] ++ decimal row := by
    intro hm
    rw [List.mem_append] at hm
    rcases hm with hm | hm
    · revert hm; decide
    · exact (isDigit_plain _ (decimal_isDigit row _ hm)).2.2.1 rfl
  have := index_append (['\x1b', '['] ++ decimal row) (decimal col) ';' h
  simpa [report] using this

theorem decimal_aux_length (fuel : Nat) :
    ∀ (n k : Nat), n < 10 ^ (k + 1) → (decimal_aux fuel n).length ≤ k + 1 := by
  induction fuel with
  | zero => intro n k _; simp [decimal_aux]
  | succ fuel ih =>
    intro n k h
    unfold decimal_aux
    split_ifs with h10
    · simp
    · cases k with
      | zero => omega
      | succ k =>
        have hd : n / 10 < 10 ^ (k + 1) := by
          rw [pow_succ] at h
          omega
        have := ih (n / 10) k hd
        simp only [List.length_append, List.length_singleton]
        omega

/-- The report of a position that fits an `int` is at most 23 bytes long. -/
theorem report_length_le (row col : Nat) (hrm : row ≤ 2147483647) (hcm : col ≤ 2147483647) :
    (report row col).length ≤ 23 := by
  have h1 := decimal_aux_length (row + 1) row 9 (by norm_num; omega)
  have h2 := decimal_aux_length (col + 1) col 9 (by norm_num; omega)
  simp only [report, decimal, List.length_append, List.length_cons, List.length_nil]
  omega

theorem report_length_le_witness : (report 24 80).length ≤ 23 :=
  report_length_le 24 80 (by decide) (by decide)

/-- C12 as stated fails: the report of row 2147483648, column 1 is 14 bytes
long, and `cli_get_cursor` returns `*row = -2147483648`: an `int` cannot hold
the row. -/
theorem get_cursor_report_counterexample :
    (report 2147483648 1).length = 14 ∧
    cli_get_cursor 0 0 (report 2147483648 1 ++ ['R']) =
      Outcome.returned (-2147483648) 1 1 (report 2147483648 1) [] ∧
    ¬ ∃ (q : Nat) (s rest : List Char),
      cli_get_cursor 0 0 (report 2147483648 1 ++ ['R']) =
        Outcome.returned 2147483648 1 q s rest := by
  refine ⟨by decide, by decide, ?_⟩
  rintro ⟨q, s, rest, h⟩
  have h2 : cli_get_cursor 0 0 (report 2147483648 1 ++ ['R']) =
      Outcome.returned (-2147483648) 1 1 (report 2147483648 1) [] := by decide
  rw [h2] at h
  simp only [Outcome.returned.injEq] at h
  exact absurd h.1 (by decide)

/-- C12 amended: for positive `row` and `col` that fit an `int` (at most
2147483647) and whose report `ESC [ row ; col` is at most 31 bytes long,
when the input delivers that report followed by `R`, `cli_get_cursor` issues
one query and returns `*row = row`, `*col = col`, leaving what follows the
`R` unread. -/
theorem get_cursor_parses_report (row col : Nat) (row0 col0 : Int) (rest : List Char)
    (hr : 0 < row) (hc : 0 < col) (hrm : row ≤ 2147483647) (hcm : col ≤ 2147483647)
    (hlen : (report row col).length ≤ 31) :
    cli_get_cursor row0 col0 (report row col ++ 'R' :: rest) =
      Outcome.returned row col 1 (report row col) rest := by
  have hloop : read_loop 31 [] (report row col ++ 'R' :: rest) =
      some (report row col, rest) := by
    have := read_loop_report (report row col) 31 [] rest (report_plain row col)
      (by exact_mod_cast hlen)
    simpa using this
  have hrow : atoi ((report row col).drop 2) = row := by
    have hd : (report row col).drop 2 = decimal row ++ ';' :: decimal col := by
      simp [report]
    rw [hd, atoi_decimal row _ (by intro c hc2; simp at hc2; rw [← hc2]; decide),
      sat64_id _ (by omega) (by omega)]
    exact wrap32_id _ (by omega) (by omega)
  have hcol : atoi (';' :: decimal col).tail = col := by
    have := atoi_decimal col [] (by intro c hc2; simp at hc2)
    rw [List.append_nil] at this
    rw [List.tail_cons, this, sat64_id _ (by omega) (by omega)]
    exact wrap32_id _ (by omega) (by omega)
  unfold cli_get_cursor
  rw [get_cursor_attempts_succ, hloop]
  have hl : ¬ 32 ≤ (report row col).length := by omega
  simp only [report_index, hrow, hcol, hl, false_and, if_false]
  have h1 : (row : Int) ≠ 0 := by omega
  have h2 : (col : Int) ≠ 0 := by omega
  simp [h1, h2]

theorem get_cursor_parses_report_witness :
    cli_get_cursor 0 0 (report 24 80 ++ 'R' :: "ls".toList) =
      Outcome.returned 24 80 1 (report 24 80) "ls".toList :=
  get_cursor_parses_report 24 80 0 0 "ls".toList (by decide) (by decide) (by decide)
    (by decide) (by decide)

end CliInput
